import Mathlib

set_option maxHeartbeats 1000000

/- Shallow embedding of `wordle_app.py` (frostming/wordle-tui).
   Letter statuses are the integers the source uses (`ABSENT = 0`,
   `PRESENT = 1`, `CORRECT = 2`); a widget's `label` always mirrors its
   `name` in the source and is presentation-only, so it is omitted here.
   Python's empty string for a cell letter is modelled as `none`. -/

def ABSENT : Nat := 0
def PRESENT : Nat := 1
def CORRECT : Nat := 2

def COLUMN_SIZE : Nat := 5
def ROW_SIZE : Nat := 6

/-- One grid position (a `Letter` widget): `name` is the letter held
(`none` for the empty string) and `status` its evaluation
(`none` when not yet evaluated). -/
structure Cell where
  name : Option Char
  status : Option Nat
deriving DecidableEq

def emptyCell : Cell := ⟨none, none⟩

/-- `GuessView`: the 6×5 grid of cells (row-major) plus the absolute cursor
`self.current` (set to 0 in `GuessView.on_mount`). -/
structure GuessView where
  slots : List Cell
  current : Nat
deriving DecidableEq

/-- The freshly constructed grid: 30 empty cells, cursor at 0. -/
def GuessView.initial : GuessView :=
  { slots := List.replicate (COLUMN_SIZE * ROW_SIZE) emptyCell, current := 0 }

/-- `GuessView.current_guess`: the five cells of the row containing the
cursor (`self.slots[start : start + COLUMN_SIZE]`). -/
def GuessView.current_guess (g : GuessView) : List Cell :=
  (g.slots.drop (g.current / COLUMN_SIZE * COLUMN_SIZE)).take COLUMN_SIZE

/-- `GuessView.current_word`: the letters of the current row. -/
def GuessView.current_word (g : GuessView) : List (Option Char) :=
  g.current_guess.map Cell.name

/-- A cell with its letter replaced. -/
def Cell.withName (b : Cell) (n : Option Char) : Cell := { b with name := n }

/-- `GuessView.input_letter` (the `button` local is inlined). -/
def GuessView.input_letter (g : GuessView) (letter : Char) : GuessView :=
  if (g.slots.getD g.current emptyCell).name.isSome then
    if g.current % COLUMN_SIZE = COLUMN_SIZE - 1 then
      -- the last letter is filled
      g
    else
      { slots := g.slots.set (g.current + 1) ((g.slots.getD (g.current + 1) emptyCell).withName (some letter)),
        current := g.current + 1 }
  else
    { g with slots := g.slots.set g.current ((g.slots.getD g.current emptyCell).withName (some letter)) }

/-- `GuessView.backspace_letter` (the `button` local is inlined). -/
def GuessView.backspace_letter (g : GuessView) : GuessView :=
  if (g.slots.getD g.current emptyCell).name.isNone then
    if g.current % COLUMN_SIZE = 0 then
      -- the first letter
      g
    else
      { slots := g.slots.set (g.current - 1) ((g.slots.getD (g.current - 1) emptyCell).withName none),
        current := g.current - 1 }
  else
    { g with slots := g.slots.set g.current ((g.slots.getD g.current emptyCell).withName none) }

/-- `counter[c] -= 1` on the per-letter remaining-count table. -/
def decr (cnt : Char → Int) (c : Char) : Char → Int :=
  fun x => if x = c then cnt x - 1 else cnt x

/-- First loop of `check_solution`: for each position `i`, if
`solution[i] == b.name`, decrement the counter at that letter and set the
cell's status to `CORRECT`.  (If `solution` were shorter than the row the
source would raise `IndexError`; the leftover cells are returned
unchanged here, which no reachable call hits.) -/
def pass1 : List Char → List Cell → (Char → Int) → List Cell × (Char → Int)
  | s :: ss, b :: bs, cnt =>
    if b.name = some s then
      let res := pass1 ss bs (decr cnt s)
      ({ b with status := some CORRECT } :: res.1, res.2)
    else
      let res := pass1 ss bs cnt
      (b :: res.1, res.2)
  | _, bs, cnt => (bs, cnt)

/-- Second loop of `check_solution`: skip cells already `CORRECT`; give a
cell `ABSENT` if `counter.get(b.name, 0) <= 0` (an empty name reads the
counter's default 0) and otherwise decrement the counter and give it
`PRESENT`. -/
def pass2 : List Cell → (Char → Int) → List Cell
  | [], _ => []
  | b :: bs, cnt =>
    if b.status = some CORRECT then b :: pass2 bs cnt
    else
      match b.name with
      | none => { b with status := some ABSENT } :: pass2 bs cnt
      | some x =>
        if cnt x ≤ 0 then { b with status := some ABSENT } :: pass2 bs cnt
        else { b with status := some PRESENT } :: pass2 bs (decr cnt x)

/-- The marking part of `GuessView.check_solution` on one row of cells:
the early full-match branch marks every cell `CORRECT`; otherwise the
two passes run with the counter initialised from `Counter(solution)`. -/
def scoreRow (solution : List Char) (letters : List Cell) : List Cell :=
  if solution.map some = letters.map Cell.name then
    letters.map fun b => { b with status := some CORRECT }
  else
    let p := pass1 solution letters fun x => (solution.count x : Int)
    pass2 p.1 p.2

/-- Write a scored row back over the cells it came from (the source
mutates those `Letter` objects in place). -/
def setRow (slots : List Cell) (start : Nat) (row : List Cell) : List Cell :=
  slots.take start ++ row ++ slots.drop (start + row.length)

/-- `GuessView.check_solution`: score the current row against the
solution.  A full match returns `True` at once (before any cursor move);
otherwise the cursor advances unless it is already on the last cell of
the grid, in which case `False` (loss) is returned. -/
def GuessView.check_solution (g : GuessView) (solution : List Char) :
    GuessView × Option Bool :=
  let start := g.current / COLUMN_SIZE * COLUMN_SIZE
  let letters := g.current_guess
  let win := solution.map some = letters.map Cell.name
  let g' := { g with slots := setRow g.slots start (scoreRow solution letters) }
  if win then (g', some true)
  else if g.current < COLUMN_SIZE * ROW_SIZE - 1 then
    ({ g' with current := g.current + 1 }, none)
  else
    (g', some false)

/-- Pure form of the scoring algorithm on a fresh (unevaluated) row:
the per-position statuses `check_solution` assigns to a row spelling
`guess` when checked against `solution`. -/
def score (solution guess : List Char) : List (Option Nat) :=
  (scoreRow solution (guess.map fun c => ⟨some c, none⟩)).map Cell.status

/-- `partition(takewhile(...), COLUMN_SIZE)`: split a list into chunks
of five (a shorter final chunk is kept whole). -/
def chunks5 : List Cell → List (List Cell)
  | [] => []
  | a :: b :: c :: d :: e :: rest => [a, b, c, d, e] :: chunks5 rest
  | l => [l]

/-- `GuessView.valid_guesses`: the filled prefix of the grid, split into
rows of five. -/
def GuessView.valid_guesses (g : GuessView) : List (List Cell) :=
  chunks5 (g.slots.takeWhile fun b => b.name.isSome)

/-- The persisted statistics dictionary (`.stats.json` / `INITIAL_STATS`):
`last_played` is `none` when the key is missing (its read uses default
`-1`), `last_result` is `none` for JSON `null` or a missing key, and
`last_guesses` is the pair of concatenated letters and single-digit
status characters in row-major order. -/
structure Stats where
  played : Nat
  stats : List Nat
  last_played : Option Int := none
  last_guesses : List Char × List Char := ([], [])
  last_result : Option Bool := none
deriving DecidableEq

def INITIAL_STATS : Stats := { played := 0, stats := [0, 0, 0, 0, 0, 0] }

/-- The fields of `WordleApp` the state machine reads and writes.
`buttons` is the keyboard widget's status per letter (the source's dict
holds only the 26 keyboard letters; other characters are never looked
up); `message` is the message widget's content. -/
structure AppState where
  guess : GuessView
  buttons : Char → Option Nat
  result : Option Bool
  stats : Stats
  index : Nat
  solution : List Char
  message : String

/-- `button.status = max(button.status or 0, l.status)` for one scored
cell.  (In the source `l.status` is always an int and `l.name` a
keyboard letter at this point; a cell missing either is returned
unchanged to keep the function total.) -/
def updateButton (btns : Char → Option Nat) (l : Cell) : Char → Option Nat :=
  match l.name, l.status with
  | some n, some st => fun x => if x = n then some (max ((btns n).getD 0) st) else btns x
  | _, _ => btns

/-- `str(l.status)` for a single-digit status code. -/
def statusChar (n : Nat) : Char := Char.ofNat (48 + n)

/-- `self.stats["stats"][i] += 1`. -/
def incAt (l : List Nat) (i : Nat) : List Nat := l.set i (l.getD i 0 + 1)

/-- `WordleApp.save_statistics`: bump `played`, credit `stats` on a win
with the number of filled rows, then build the record that is both
written to disk and merged back into the in-memory dict (`data` carries
`self.stats["played"] + 1` again after the in-place increment). -/
def save_statistics (app : AppState) : AppState :=
  let guesses := app.guess.valid_guesses
  let played1 := app.stats.played + 1
  let stats1 :=
    if app.result.getD false then incAt app.stats.stats (guesses.length - 1)
    else app.stats.stats
  let data : Stats :=
    { played := played1 + 1,
      stats := stats1,
      last_played := some (app.index : Int),
      last_guesses := (guesses.flatten.filterMap Cell.name,
                       guesses.flatten.filterMap fun l => l.status.map statusChar),
      last_result := app.result }
  { app with stats := data }

/-- `WordleApp.show_result` (the countdown timer it also starts is
presentation-only; the source quotes the letter c in the final line,
the quote characters are dropped here). -/
def show_result (app : AppState) : AppState :=
  { app with message :=
      (if app.result.getD false then "You Win!"
       else "You Lose! The answer is:\n" ++ String.mk app.solution) ++
      "\nPress c to copy the result." }

/-- `WordleApp.check_input`: reject an incomplete row, then a word in
neither word list (`Ta` extended guesses, `La` solutions), each by only
setting the message; otherwise score the row, fold the scored cells into
the keyboard, and on a win or loss show the result and save statistics. -/
def check_input (La Ta : List (List Char)) (app : AppState) : AppState :=
  let word := app.guess.current_word
  let cw := (word.filterMap id).map Char.toLower
  if word.contains none then { app with message := "Not enough letters" }
  else if !Ta.contains cw && !La.contains cw then
    { app with message := "Not in word list" }
  else
    let start := app.guess.current / COLUMN_SIZE * COLUMN_SIZE
    let p := app.guess.check_solution app.solution
    let scored := (p.1.slots.drop start).take COLUMN_SIZE
    let app' := { app with guess := p.1, result := p.2,
                           buttons := scored.foldl updateButton app.buttons }
    if p.2.isSome then save_statistics (show_result app') else app'

/-- `WordleApp.copy_result` (the clipboard text and the two-second
message restore timer are external effects; only the message change is
kept). -/
def copy_result (app : AppState) : AppState :=
  { app with message := "Successfully copied to the clipboard." }

/-- `int(status)` on one stored single-digit status character. -/
def digitVal (c : Char) : Nat := c.toNat - 48

/-- The slot half of `init_game`'s replay loop:
`slots[i].name = slots[i].label = letter; slots[i].status = int(status)`. -/
def replaySlots : List (Char × Char) → Nat → List Cell → List Cell
  | [], _, slots => slots
  | (l, s) :: rest, i, slots =>
    replaySlots rest (i + 1) (slots.set i ⟨some l, some (digitVal s)⟩)

/-- The keyboard half of `init_game`'s replay loop:
`self.buttons[letter].status = max(self.buttons[letter].status or 0, int(status))`. -/
def replayButtons : List (Char × Char) → (Char → Option Nat) → Char → Option Nat
  | [], btns => btns
  | (l, s) :: rest, btns =>
    replayButtons rest
      fun x => if x = l then some (max ((btns l).getD 0) (digitVal s)) else btns x

/-- `WordleApp.init_game`: a record older than today resets
`last_result` and leaves the fresh grid; otherwise the stored letters
and statuses are replayed into the grid and keyboard, the stored result
restored, and the result shown. -/
def init_game (app : AppState) : AppState :=
  if (app.index : Int) > app.stats.last_played.getD (-1) then
    { app with stats := { app.stats with last_result := none } }
  else
    let pairs := app.stats.last_guesses.1.zip app.stats.last_guesses.2
    show_result
      { app with
        guess := { app.guess with slots := replaySlots pairs 0 app.guess.slots },
        buttons := replayButtons pairs app.buttons,
        result := app.stats.last_result }

/-- The app state as `WordleApp.on_mount` builds it before `init_game`
runs: fresh grid, all keyboard statuses unset, no result yet. -/
def app_load (index : Nat) (solution : List Char) (stats : Stats) : AppState :=
  { guess := GuessView.initial, buttons := fun _ => none, result := none,
    stats := stats, index := index, solution := solution, message := "" }

/-- Session start in `WordleApp.on_mount` order: the fresh `GuessView`
is built, `init_game` runs, and mounting the view runs
`GuessView.on_mount`, which sets `self.current = 0`. -/
def app_setup (index : Nat) (solution : List Char) (stats : Stats) : AppState :=
  let app1 := init_game (app_load index solution stats)
  { app1 with guess := { app1.guess with current := 0 } }

inductive Key where
  | char (c : Char)
  | enter
  | backspace
  | other
deriving DecidableEq

/-- `WordleApp.on_key`: in a terminal state only `c` (copy) does
anything; otherwise the message is cleared and the key routed to letter
input, submission, or backspace. -/
def on_key (La Ta : List (List Char)) (app : AppState) (k : Key) : AppState :=
  if app.result.isSome then
    match k with
    | Key.char c => if c = 'c' then copy_result app else app
    | _ => app
  else
    let app := { app with message := "" }
    match k with
    | Key.char c =>
      if c.isAlpha then { app with guess := app.guess.input_letter c.toUpper }
      else app
    | Key.enter => check_input La Ta app
    | Key.backspace => { app with guess := app.guess.backspace_letter }
    | Key.other => app

/-- Number of scored positions whose guess letter is `x` and whose
status credits it (`Correct` or `Present`). -/
def creditCount (x : Char) : List Char → List (Option Nat) → Nat
  | g :: gs, r :: rs =>
    (if g = x ∧ (r = some CORRECT ∨ r = some PRESENT) then 1 else 0) +
      creditCount x gs rs
  | _, _ => 0

/-- Same count over a list of cells. -/
def creditC (x : Char) : List Cell → Nat
  | [] => 0
  | b :: bs =>
    (if b.name = some x ∧ (b.status = some CORRECT ∨ b.status = some PRESENT) then 1 else 0) +
      creditC x bs

/-- Number of cells holding letter `x` marked `Correct`. -/
def correctC (x : Char) : List Cell → Nat
  | [] => 0
  | b :: bs =>
    (if b.name = some x ∧ b.status = some CORRECT then 1 else 0) + correctC x bs

/-- Number of positions where the cell's letter equals the solution
letter and both equal `x` (the exact matches of `x`). -/
def matchedCount (x : Char) : List Char → List Cell → Nat
  | s :: ss, b :: bs =>
    (if b.name = some s ∧ s = x then 1 else 0) + matchedCount x ss bs
  | _, _ => 0

/-- The cell of the current row at column `j`. -/
def rowCell (g : GuessView) (j : Nat) : Cell :=
  g.slots.getD (g.current / COLUMN_SIZE * COLUMN_SIZE + j) emptyCell

/-- The grid invariant exactly as the spec words it: the cursor points
at the first empty cell of the current row, or at the last filled cell
if the row is full. -/
def specCursorInv (g : GuessView) : Prop :=
  ((rowCell g (g.current % COLUMN_SIZE)).name = none ∧
    ∀ j, j < g.current % COLUMN_SIZE → (rowCell g j).name.isSome = true) ∨
  ((∀ j, j < COLUMN_SIZE → (rowCell g j).name.isSome = true) ∧
    g.current % COLUMN_SIZE = COLUMN_SIZE - 1)

/-- The invariant the code actually maintains: in a well-formed grid,
every cell strictly before the cursor in its row is filled and every
cell strictly after it is empty (so the cursor sits on the last filled
cell once something is typed, or on the first empty cell right after a
deletion or on a blank row). -/
def cursorInv (g : GuessView) : Prop :=
  g.slots.length = COLUMN_SIZE * ROW_SIZE ∧
  g.current < COLUMN_SIZE * ROW_SIZE ∧
  ∀ j, j < COLUMN_SIZE →
    (j < g.current % COLUMN_SIZE → (rowCell g j).name.isSome = true) ∧
    (g.current % COLUMN_SIZE < j → (rowCell g j).name = none)

instance (g : GuessView) : Decidable (specCursorInv g) := by
  unfold specCursorInv; infer_instance

instance (g : GuessView) : Decidable (cursorInv g) := by
  unfold cursorInv; infer_instance

/-- Rank of a keyboard/cell state under the spec ordering
`Correct > Present > Absent > Unknown` (`none` is the unset state). -/
def ordVal : Option Nat → Nat
  | none => 0
  | some v => v + 1

/-- The best state a letter `x` achieves in a scored row, as a rank
(0 when `x` does not occur). -/
def rowOrd (x : Char) (row : List Cell) : Nat :=
  (row.map fun c => if c.name = some x then ordVal c.status else 0).foldr max 0

/-- The best state a letter `x` achieves among replayed
(letter, status digit) pairs, as a rank. -/
def pairsOrd (x : Char) (ps : List (Char × Char)) : Nat :=
  (ps.map fun p => if p.1 = x then digitVal p.2 + 1 else 0).foldr max 0

/-- Concrete fixture: a grid whose first row is the scored winning row
CRANE. -/
def wonGrid : GuessView :=
  { slots := (['C', 'R', 'A', 'N', 'E'].map fun c => (⟨some c, some CORRECT⟩ : Cell)) ++ List.replicate 25 emptyCell, current := 4 }

/-- Concrete fixture: an app that has just won on its first row. -/
def wonApp : AppState :=
  { app_load 7 ['C', 'R', 'A', 'N', 'E'] INITIAL_STATS with guess := wonGrid, result := some true }

/-- Concrete fixture: a stored record for day 7 (won in one row). -/
def replayStats : Stats :=
  { played := 3, stats := [1, 1, 0, 0, 0, 0], last_played := some 7, last_guesses := (['C', 'R', 'A', 'N', 'E'], ['2', '0', '1', '0', '2']), last_result := some true }

/-- Concrete fixture: a grid whose first row spells CRANE, cursor
mid-row. -/
def craneGrid : GuessView :=
  { slots := (['C', 'R', 'A', 'N', 'E'].map fun c => (⟨some c, none⟩ : Cell)) ++ List.replicate 25 emptyCell, current := 3 }

/-- Concrete fixture: an app about to submit the winning row CRANE. -/
def craneApp : AppState :=
  { app_load 7 ['C', 'R', 'A', 'N', 'E'] INITIAL_STATS with guess := craneGrid }

/- ------------------------------------------------------------------ -/
/- Theorems                                                            -/
/- ------------------------------------------------------------------ -/

/- ------------------------------------------------------------------ -/
/- List helpers                                                        -/
/- ------------------------------------------------------------------ -/

theorem getD_set_self {α : Type} (l : List α) (i : Nat) (a d : α)
    (h : i < l.length) : (l.set i a).getD i d = a := by
  simp [List.getD, List.getElem?_set_self, h]

theorem getD_set_ne {α : Type} (l : List α) {i j : Nat} (a d : α)
    (h : i ≠ j) : (l.set i a).getD j d = l.getD j d := by
  simp [List.getD, List.getElem?_set_ne h]

/- ------------------------------------------------------------------ -/
/- Claim C1: the duplicate-letter example                              -/
/- ------------------------------------------------------------------ -/

/-- Claim C1, counterexample: for solution `ALLOW` and guess `LLAMA` the
scoring algorithm does NOT produce
`[Present, Absent, Absent, Absent, Absent]` as the spec's example says. -/
theorem C1_example_counterexample :
    ¬ score "ALLOW".toList "LLAMA".toList =
        [some PRESENT, some ABSENT, some ABSENT, some ABSENT, some ABSENT] := by
  decide

/-- Claim C1, amended: for solution `ALLOW` and guess `LLAMA` the scoring
algorithm produces `[Present, Correct, Present, Absent, Absent]`: the `L`
at position 1 is an exact match, the leading `L` consumes the solution's
second `L` as Present, the `A` at position 2 consumes the solution's
single `A` as Present, and the `M` and the trailing `A` are Absent. -/
theorem C1_example_amended :
    score "ALLOW".toList "LLAMA".toList =
      [some PRESENT, some CORRECT, some PRESENT, some ABSENT, some ABSENT] := by
  decide

/- ------------------------------------------------------------------ -/
/- Claim C2: the scoring algorithm never overcounts a letter           -/
/- ------------------------------------------------------------------ -/

lemma pass1_names (ss : List Char) : ∀ (bs : List Cell) (cnt : Char → Int),
    ((pass1 ss bs cnt).1).map Cell.name = bs.map Cell.name := by
  induction ss with
  | nil => intro bs cnt; cases bs <;> simp [pass1]
  | cons s ss ih =>
    intro bs cnt
    cases bs with
    | nil => simp [pass1]
    | cons b bs =>
      by_cases h : b.name = some s <;> simp [pass1, h, ih]

lemma pass2_names (bs : List Cell) : ∀ (cnt : Char → Int),
    (pass2 bs cnt).map Cell.name = bs.map Cell.name := by
  induction bs with
  | nil => intro cnt; simp [pass2]
  | cons b bs ih =>
    intro cnt
    by_cases hst : b.status = some CORRECT
    · simp [pass2, hst, ih]
    · cases hn : b.name with
      | none => simp [pass2, hst, hn, ih]
      | some y =>
        by_cases hc : cnt y ≤ 0 <;> simp [pass2, hst, hn, hc, ih]

lemma pass1_counter (ss : List Char) : ∀ (bs : List Cell) (cnt : Char → Int) (x : Char),
    (pass1 ss bs cnt).2 x = cnt x - matchedCount x ss bs := by
  induction ss with
  | nil => intro bs cnt x; cases bs <;> simp [pass1, matchedCount]
  | cons s ss ih =>
    intro bs cnt x
    cases bs with
    | nil => simp [pass1, matchedCount]
    | cons b bs =>
      by_cases h : b.name = some s
      · simp only [pass1, h, matchedCount, if_true, reduceIte]
        rw [ih]
        rcases eq_or_ne s x with rfl | hsx
        · simp [decr] <;> omega
        · have hxs : ¬ x = s := fun hh => hsx hh.symm
          simp [decr, hxs, hsx]
      · simp only [pass1, h, matchedCount, reduceIte]
        rw [ih]
        simp [h]

lemma correctC_eq_zero (x : Char) (bs : List Cell)
    (h : ∀ b ∈ bs, b.status = none) : correctC x bs = 0 := by
  induction bs with
  | nil => simp [correctC]
  | cons b bs ih =>
    have hb := h b (by simp)
    simp [correctC, hb, ih fun c hc => h c (by simp [hc])]

lemma pass1_correctC (ss : List Char) : ∀ (bs : List Cell) (cnt : Char → Int) (x : Char),
    (∀ b ∈ bs, b.status = none) →
    correctC x (pass1 ss bs cnt).1 = matchedCount x ss bs := by
  induction ss with
  | nil =>
    intro bs cnt x hstat
    cases bs with
    | nil => simp [pass1, matchedCount, correctC]
    | cons b bs => simp [pass1, matchedCount, correctC_eq_zero x _ hstat]
  | cons s ss ih =>
    intro bs cnt x hstat
    cases bs with
    | nil => simp [pass1, matchedCount, correctC]
    | cons b bs =>
      have hbs : ∀ c ∈ bs, c.status = none := fun c hc => hstat c (by simp [hc])
      by_cases h : b.name = some s
      · simp only [pass1, h, matchedCount, correctC, if_true, reduceIte]
        rw [ih bs (decr cnt s) x hbs]
        rcases eq_or_ne s x with rfl | hsx
        · simp [h]
        · simp [h, hsx]
      · have hb := hstat b (by simp)
        simp only [pass1, h, matchedCount, correctC, reduceIte]
        rw [ih bs cnt x hbs]
        simp [h, hb]

lemma creditC_cons_absent (x : Char) (nm : Option Char) (l : List Cell) :
    creditC x (⟨nm, some ABSENT⟩ :: l) = creditC x l := by
  simp [creditC, ABSENT, CORRECT, PRESENT]

lemma creditC_cons_present (x : Char) (nm : Option Char) (l : List Cell) :
    creditC x (⟨nm, some PRESENT⟩ :: l) =
      (if nm = some x then 1 else 0) + creditC x l := by
  simp [creditC, PRESENT, CORRECT]

lemma creditC_cons_kept (x : Char) (b : Cell) (l : List Cell)
    (hst : b.status = some CORRECT) :
    creditC x (b :: l) = (if b.name = some x then 1 else 0) + creditC x l := by
  simp [creditC, hst]

lemma correctC_cons_not (x : Char) (b : Cell) (l : List Cell)
    (hst : ¬ b.status = some CORRECT) :
    correctC x (b :: l) = correctC x l := by
  simp [correctC, hst]

lemma correctC_cons_kept (x : Char) (b : Cell) (l : List Cell)
    (hst : b.status = some CORRECT) :
    correctC x (b :: l) = (if b.name = some x then 1 else 0) + correctC x l := by
  simp [correctC, hst]

lemma pass2_creditC_le (bs : List Cell) : ∀ (cnt : Char → Int) (x : Char),
    (creditC x (pass2 bs cnt) : Int) ≤ (correctC x bs : Int) + max (cnt x) 0 := by
  induction bs with
  | nil =>
    intro cnt x
    simp only [pass2, creditC, correctC]
    omega
  | cons b bs ih =>
    intro cnt x
    by_cases hst : b.status = some CORRECT
    · simp only [pass2, hst, if_true, reduceIte]
      rw [creditC_cons_kept x b _ hst, correctC_cons_kept x b _ hst]
      have hih := ih cnt x
      by_cases hbx : b.name = some x <;> simp only [hbx, reduceIte] <;> push_cast <;> omega
    · cases hn : b.name with
      | none =>
        simp only [pass2, hst, hn, reduceIte]
        rw [creditC_cons_absent, correctC_cons_not x b _ hst]
        have hih := ih cnt x
        omega
      | some y =>
        by_cases hc : cnt y ≤ 0
        · simp only [pass2, hst, hn, hc, reduceIte]
          rw [creditC_cons_absent, correctC_cons_not x b _ hst]
          have hih := ih cnt x
          omega
        · simp only [pass2, hst, hn, hc, reduceIte]
          rw [creditC_cons_present, correctC_cons_not x b _ hst]
          rcases eq_or_ne y x with rfl | hyx
          · rw [if_pos rfl]
            have hih := ih (decr cnt y) y
            have hd : decr cnt y y = cnt y - 1 := by simp [decr]
            rw [hd] at hih
            push_cast
            omega
          · rw [if_neg (by simp [hyx])]
            have hih := ih (decr cnt y) x
            have hd : decr cnt y x = cnt x := by
              have hxy : ¬ x = y := fun hh => hyx hh.symm
              simp [decr, hxy]
            rw [hd] at hih
            push_cast
            omega

lemma pass2_getElem_correct (bs : List Cell) : ∀ (cnt : Char → Int) (i : Nat) (b : Cell),
    bs[i]? = some b → b.status = some CORRECT → (pass2 bs cnt)[i]? = some b := by
  induction bs with
  | nil => intro cnt i b hb; simp at hb
  | cons c cs ih =>
    intro cnt i b hb hcor
    cases i with
    | zero =>
      simp at hb
      subst hb
      simp [pass2, hcor]
    | succ i =>
      simp only [List.getElem?_cons_succ] at hb
      by_cases hst : c.status = some CORRECT
      · simp only [pass2, hst, if_true, reduceIte, List.getElem?_cons_succ]
        exact ih cnt i b hb hcor
      · cases hn : c.name with
        | none =>
          simp only [pass2, hst, hn, reduceIte, List.getElem?_cons_succ]
          exact ih cnt i b hb hcor
        | some y =>
          by_cases hc : cnt y ≤ 0
          · simp only [pass2, hst, hn, hc, reduceIte, List.getElem?_cons_succ]
            exact ih cnt i b hb hcor
          · simp only [pass2, hst, hn, hc, reduceIte, List.getElem?_cons_succ]
            exact ih (decr cnt y) i b hb hcor

lemma pass1_getElem_match (ss : List Char) :
    ∀ (bs : List Cell) (cnt : Char → Int) (i : Nat) (s : Char) (b : Cell),
    ss[i]? = some s → bs[i]? = some b → b.name = some s →
    ((pass1 ss bs cnt).1)[i]? = some { b with status := some CORRECT } := by
  induction ss with
  | nil => intro bs cnt i s b hs hb hn; simp at hs
  | cons s0 ss ih =>
    intro bs cnt i s b hs hb hn
    cases bs with
    | nil => simp at hb
    | cons b0 bs =>
      cases i with
      | zero =>
        simp at hs hb
        subst hs; subst hb
        simp [pass1, hn]
      | succ i =>
        simp only [List.getElem?_cons_succ] at hs hb
        by_cases h : b0.name = some s0
        · simp only [pass1, h, if_true, reduceIte, List.getElem?_cons_succ]
          exact ih bs (decr cnt s0) i s b hs hb hn
        · simp only [pass1, h, reduceIte, List.getElem?_cons_succ]
          exact ih bs cnt i s b hs hb hn

lemma matched_le_count (x : Char) (ss : List Char) : ∀ (bs : List Cell),
    matchedCount x ss bs ≤ ss.count x := by
  induction ss with
  | nil => intro bs; cases bs <;> simp [matchedCount]
  | cons s ss ih =>
    intro bs
    cases bs with
    | nil => simp [matchedCount]
    | cons b bs =>
      rw [List.count_cons]
      rcases eq_or_ne s x with rfl | hsx
      · have := ih bs
        simp only [matchedCount]
        by_cases h : b.name = some s <;> simp [h] <;> omega
      · have := ih bs
        simp only [matchedCount]
        simp [hsx]
        omega

lemma creditCount_eq_creditC (x : Char) : ∀ (G : List Char) (bs : List Cell),
    bs.map Cell.name = G.map some →
    creditCount x G (bs.map Cell.status) = creditC x bs := by
  intro G
  induction G with
  | nil =>
    intro bs h
    simp at h
    subst h
    simp [creditCount, creditC]
  | cons g gs ih =>
    intro bs h
    cases bs with
    | nil => simp at h
    | cons b bs =>
      simp only [List.map_cons, List.cons.injEq] at h
      obtain ⟨hb, hbs⟩ := h
      simp only [List.map_cons, creditCount, creditC, hb]
      rw [ih bs hbs]
      rcases eq_or_ne g x with rfl | hgx
      · simp
      · simp [hgx]

lemma creditCount_correct_of_all (x : Char) (G : List Char) :
    ∀ (rs : List (Option Nat)), (∀ r ∈ rs, r = some CORRECT) →
    rs.length = G.length → creditCount x G rs = G.count x := by
  induction G with
  | nil =>
    intro rs h hlen
    cases rs with
    | nil => rfl
    | cons r rs => simp at hlen
  | cons g gs ih =>
    intro rs h hlen
    cases rs with
    | nil => simp at hlen
    | cons r rs =>
      have hr := h r (by simp)
      subst hr
      simp only [creditCount, List.count_cons]
      rw [ih rs (fun q hq => h q (by simp [hq])) (by simpa using hlen)]
      rcases eq_or_ne g x with rfl | hgx
      · rw [if_pos ⟨rfl, Or.inl trivial⟩]
        have hbeq : (g == g) = true := by simp
        rw [hbeq, if_pos rfl]
        omega
      · rw [if_neg fun hh => hgx hh.1]
        have hbeq : (g == x) = false := by simp [hgx]
        simp [hbeq]

lemma map_some_eq (S G : List Char) (h : S.map some = G.map some) : S = G := by
  induction S generalizing G with
  | nil => cases G <;> simp_all
  | cons s ss ih =>
    cases G with
    | nil => simp at h
    | cons g gs =>
      simp only [List.map_cons, List.cons.injEq, Option.some.injEq] at h
      exact by rw [h.1, ih gs h.2]

/-- Claim C2: for solutions and guesses of equal length, the scoring
algorithm never credits a letter (as `Correct` or `Present`) more times
than its multiplicity in the solution, and every exact-position match is
marked `Correct` (so exact matches consume the supply first and
present-elsewhere marks only get what remains). -/
theorem C2_no_overcount (S G : List Char) (hlen : S.length = G.length) :
    (∀ x : Char, creditCount x G (score S G) ≤ S.count x) ∧
    (∀ i, i < G.length → S[i]? = G[i]? → (score S G)[i]? = some (some CORRECT)) := by
  clear hlen
  unfold score scoreRow
  have hnames : (G.map fun c => (⟨some c, none⟩ : Cell)).map Cell.name = G.map some := by
    simp [List.map_map]
  by_cases hwin : S.map some = (G.map fun c => (⟨some c, none⟩ : Cell)).map Cell.name
  · rw [if_pos hwin]
    have hSG : S = G := map_some_eq _ _ (hwin.trans hnames)
    subst hSG
    constructor
    · intro x
      have hall : ∀ r ∈ (((S.map fun c => (⟨some c, none⟩ : Cell)).map
          fun b => { b with status := some CORRECT }).map Cell.status),
          r = some CORRECT := by
        intro r hr
        simp only [List.mem_map] at hr
        obtain ⟨b, ⟨c, -, rfl⟩, rfl⟩ := hr
        rfl
      rw [creditCount_correct_of_all x S _ hall (by simp)]
    · intro i hi _
      have hGi : (S.map fun c => (⟨some c, none⟩ : Cell))[i]? =
          some ⟨some S[i], none⟩ := by
        rw [List.getElem?_map, List.getElem?_eq_getElem hi]
        rfl
      rw [List.getElem?_map, List.getElem?_map, hGi]
      rfl
  · rw [if_neg hwin]
    have hstat : ∀ b ∈ (G.map fun c => (⟨some c, none⟩ : Cell)), b.status = none := by
      intro b hb
      simp only [List.mem_map] at hb
      obtain ⟨c, _, rfl⟩ := hb
      rfl
    constructor
    · intro x
      have hGnames : (pass2 (pass1 S (G.map fun c => (⟨some c, none⟩ : Cell))
            fun y => (S.count y : Int)).1
            (pass1 S (G.map fun c => (⟨some c, none⟩ : Cell))
            fun y => (S.count y : Int)).2).map Cell.name = G.map some := by
        rw [pass2_names, pass1_names, hnames]
      rw [creditCount_eq_creditC x G _ hGnames]
      have h2 := pass2_creditC_le
        (pass1 S (G.map fun c => (⟨some c, none⟩ : Cell)) fun y => (S.count y : Int)).1
        (pass1 S (G.map fun c => (⟨some c, none⟩ : Cell)) fun y => (S.count y : Int)).2 x
      rw [pass1_correctC _ _ _ _ hstat, pass1_counter] at h2
      have hm := matched_le_count x S (G.map fun c => (⟨some c, none⟩ : Cell))
      omega
    · intro i hi hSGi
      have hGi : G[i]? = some G[i] := List.getElem?_eq_getElem hi
      have hSi : S[i]? = some G[i] := by rw [hSGi, hGi]
      have hLi : (G.map fun c => (⟨some c, none⟩ : Cell))[i]? =
          some ⟨some G[i], none⟩ := by
        rw [List.getElem?_map, hGi]
        rfl
      have h1 := pass1_getElem_match S (G.map fun c => (⟨some c, none⟩ : Cell))
        (fun y => (S.count y : Int)) i G[i] ⟨some G[i], none⟩ hSi hLi rfl
      have h2 := pass2_getElem_correct _
        (pass1 S (G.map fun c => (⟨some c, none⟩ : Cell)) fun y => (S.count y : Int)).2
        i _ h1 rfl
      rw [List.getElem?_map, h2]
      rfl

/-- Claim C2 witness: a concrete instance with duplicate letters. -/
theorem C2_no_overcount_witness :
    ("ALLOW".toList.length = "LLAMA".toList.length) ∧
      creditCount 'L' "LLAMA".toList (score "ALLOW".toList "LLAMA".toList) ≤
        "ALLOW".toList.count 'L' :=
  ⟨by decide, (C2_no_overcount "ALLOW".toList "LLAMA".toList (by decide)).1 'L'⟩

/- ------------------------------------------------------------------ -/
/- Claim C5: the cursor invariant                                      -/
/- ------------------------------------------------------------------ -/

/-- Claim C5, counterexample: the spec's invariant holds on the empty
grid but already fails after a single `input_letter`, which fills the
cell under the cursor without advancing it (the cursor then sits on the
last filled cell, not on the first empty one, in a non-full row). -/
theorem C5_counterexample :
    specCursorInv GuessView.initial ∧
      ¬ specCursorInv (GuessView.initial.input_letter 'A') := by
  constructor
  · decide
  · decide

lemma cursorInv_input_letter (g : GuessView) (ch : Char) (h : cursorInv g) :
    cursorInv (g.input_letter ch) := by
  obtain ⟨hlen, hcur, hrow⟩ := h
  simp only [cursorInv, rowCell, COLUMN_SIZE, ROW_SIZE] at hlen hcur hrow
  have hsplit : g.current / 5 * 5 + g.current % 5 = g.current := by omega
  by_cases hname : (g.slots.getD g.current emptyCell).name.isSome = true
  · by_cases hcol : g.current % COLUMN_SIZE = COLUMN_SIZE - 1
    · have hred : g.input_letter ch = g := by
        unfold GuessView.input_letter
        rw [if_pos hname, if_pos hcol]
      rw [hred]
      exact ⟨by simpa [COLUMN_SIZE, ROW_SIZE] using hlen,
             by simpa [COLUMN_SIZE, ROW_SIZE] using hcur,
             by simpa [cursorInv, rowCell, COLUMN_SIZE, ROW_SIZE] using hrow⟩
    · have hcol5 : ¬ g.current % 5 = 4 := by simpa [COLUMN_SIZE] using hcol
      have hred : g.input_letter ch =
          { slots := g.slots.set (g.current + 1) ((g.slots.getD (g.current + 1) emptyCell).withName (some ch)),
            current := g.current + 1 } := by
        unfold GuessView.input_letter
        rw [if_pos hname, if_neg hcol]
      rw [hred]
      simp only [cursorInv, rowCell, COLUMN_SIZE, ROW_SIZE]
      refine ⟨by simpa using hlen, by omega, ?_⟩
      intro j hj
      have hdiv : (g.current + 1) / 5 * 5 = g.current / 5 * 5 := by omega
      have hmod : (g.current + 1) % 5 = g.current % 5 + 1 := by omega
      rw [hdiv, hmod]
      constructor
      · intro hlt
        rw [getD_set_ne _ _ _ (by omega)]
        rcases Nat.lt_or_ge j (g.current % 5) with hj2 | hj2
        · exact (hrow j hj).1 hj2
        · have hjeq : j = g.current % 5 := by omega
          rw [hjeq, hsplit]
          exact hname
      · intro hgt
        rw [getD_set_ne _ _ _ (by omega)]
        exact (hrow j hj).2 (by omega)
  · have hred : g.input_letter ch =
        { g with slots := g.slots.set g.current ((g.slots.getD g.current emptyCell).withName (some ch)) } := by
      unfold GuessView.input_letter
      rw [if_neg hname]
    rw [hred]
    simp only [cursorInv, rowCell, COLUMN_SIZE, ROW_SIZE]
    refine ⟨by simpa using hlen, by simpa using hcur, ?_⟩
    intro j hj
    constructor
    · intro hlt
      rw [getD_set_ne _ _ _ (by omega)]
      exact (hrow j hj).1 hlt
    · intro hgt
      rw [getD_set_ne _ _ _ (by omega)]
      exact (hrow j hj).2 hgt

lemma cursorInv_backspace_letter (g : GuessView) (h : cursorInv g) :
    cursorInv g.backspace_letter := by
  obtain ⟨hlen, hcur, hrow⟩ := h
  simp only [cursorInv, rowCell, COLUMN_SIZE, ROW_SIZE] at hlen hcur hrow
  have hsplit : g.current / 5 * 5 + g.current % 5 = g.current := by omega
  by_cases hname : (g.slots.getD g.current emptyCell).name.isNone = true
  · by_cases hcol : g.current % COLUMN_SIZE = 0
    · have hred : g.backspace_letter = g := by
        unfold GuessView.backspace_letter
        rw [if_pos hname, if_pos hcol]
      rw [hred]
      exact ⟨by simpa [COLUMN_SIZE, ROW_SIZE] using hlen,
             by simpa [COLUMN_SIZE, ROW_SIZE] using hcur,
             by simpa [cursorInv, rowCell, COLUMN_SIZE, ROW_SIZE] using hrow⟩
    · have hcol5 : ¬ g.current % 5 = 0 := by simpa [COLUMN_SIZE] using hcol
      have hred : g.backspace_letter =
          { slots := g.slots.set (g.current - 1) ((g.slots.getD (g.current - 1) emptyCell).withName none),
            current := g.current - 1 } := by
        unfold GuessView.backspace_letter
        rw [if_pos hname, if_neg hcol]
      rw [hred]
      simp only [cursorInv, rowCell, COLUMN_SIZE, ROW_SIZE]
      refine ⟨by simpa using hlen, by omega, ?_⟩
      intro j hj
      have hdiv : (g.current - 1) / 5 * 5 = g.current / 5 * 5 := by omega
      have hmod : (g.current - 1) % 5 = g.current % 5 - 1 := by omega
      rw [hdiv, hmod]
      constructor
      · intro hlt
        rw [getD_set_ne _ _ _ (by omega)]
        exact (hrow j hj).1 (by omega)
      · intro hgt
        rw [getD_set_ne _ _ _ (by omega)]
        rcases Nat.lt_or_ge (g.current % 5) j with hj2 | hj2
        · exact (hrow j hj).2 hj2
        · have hjeq : j = g.current % 5 := by omega
          rw [hjeq, hsplit]
          exact Option.isNone_iff_eq_none.mp hname
  · have hred : g.backspace_letter =
        { g with slots := g.slots.set g.current ((g.slots.getD g.current emptyCell).withName none) } := by
      unfold GuessView.backspace_letter
      rw [if_neg hname]
    rw [hred]
    simp only [cursorInv, rowCell, COLUMN_SIZE, ROW_SIZE]
    refine ⟨by simpa using hlen, by simpa using hcur, ?_⟩
    intro j hj
    constructor
    · intro hlt
      rw [getD_set_ne _ _ _ (by omega)]
      exact (hrow j hj).1 hlt
    · intro hgt
      rw [getD_set_ne _ _ _ (by omega)]
      exact (hrow j hj).2 hgt

/-- Claim C5, amended: the invariant the grid actually preserves under
every `input_letter` and `backspace_letter`, starting from the empty
grid, is that all cells strictly before the cursor in its row are
filled and all cells strictly after it are empty (the spec's
first-empty-cell phrasing fails after the very first keystroke, see the
counterexample). -/
theorem C5_amended_cursor_invariant :
    cursorInv GuessView.initial ∧
      ∀ (g : GuessView) (ch : Char), cursorInv g →
        cursorInv (g.input_letter ch) ∧ cursorInv g.backspace_letter := by
  refine ⟨by decide, fun g ch h => ⟨cursorInv_input_letter g ch h, cursorInv_backspace_letter g h⟩⟩

/-- Claim C5 witness: the amended invariant survives a keystroke and a
backspace on the empty grid. -/
theorem C5_amended_witness :
    cursorInv (GuessView.initial.input_letter 'A') ∧
      cursorInv GuessView.initial.backspace_letter :=
  C5_amended_cursor_invariant.2 GuessView.initial 'A' (by decide)

/- ------------------------------------------------------------------ -/
/- Claim C4: submit-time validation errors leave the state unchanged  -/
/- ------------------------------------------------------------------ -/

lemma contains_none_map_some (S : List Char) : (S.map some).contains none = false := by
  induction S with
  | nil => rfl
  | cons s ss ih => simp_all

/-- Claim C4: `check_input` fails exactly when a cell of the current row
is empty (message `Not enough letters`) or, the row being full, when the
lowercased word is in neither word list (message `Not in word list`); in
both cases only the message changes — grid letters, statuses, cursor,
keyboard and result are untouched and no scoring happens — while in the
remaining case the row is scored. -/
theorem C4_submit_validation (La Ta : List (List Char)) (app : AppState) :
    ((app.guess.current_word.contains none = true) →
      check_input La Ta app = { app with message := "Not enough letters" }) ∧
    ((app.guess.current_word.contains none = false) →
      (!Ta.contains ((app.guess.current_word.filterMap id).map Char.toLower) &&
       !La.contains ((app.guess.current_word.filterMap id).map Char.toLower)) = true →
      check_input La Ta app = { app with message := "Not in word list" }) ∧
    ((app.guess.current_word.contains none = false) →
      (!Ta.contains ((app.guess.current_word.filterMap id).map Char.toLower) &&
       !La.contains ((app.guess.current_word.filterMap id).map Char.toLower)) = false →
      (check_input La Ta app).result = (app.guess.check_solution app.solution).2) := by
  refine ⟨?_, ?_, ?_⟩
  · intro h1
    simp only [check_input]
    rw [if_pos h1]
  · intro h1 h2
    simp only [check_input]
    rw [if_neg (by simp only [h1]; exact Bool.false_ne_true), if_pos h2]
  · intro h1 h2
    simp only [check_input]
    rw [if_neg (by simp only [h1]; exact Bool.false_ne_true),
        if_neg (by simp only [h2]; exact Bool.false_ne_true)]
    by_cases hres : (app.guess.check_solution app.solution).2.isSome = true
    · rw [if_pos hres]
      simp [save_statistics, show_result]
    · rw [if_neg hres]

/-- Claim C4 witness: submitting the empty first row only sets the
message. -/
theorem C4_submit_validation_witness :
    check_input [] [] (app_load 0 ['A', 'B', 'C', 'D', 'E'] INITIAL_STATS) =
      { app_load 0 ['A', 'B', 'C', 'D', 'E'] INITIAL_STATS with
        message := "Not enough letters" } :=
  (C4_submit_validation [] [] _).1 (by decide)

/- ------------------------------------------------------------------ -/
/- Claim C3: a guess equal to the solution wins at once               -/
/- ------------------------------------------------------------------ -/

lemma check_solution_win (g : GuessView) (S : List Char)
    (hword : S.map some = g.current_word) :
    (g.check_solution S).2 = some true ∧
    (g.check_solution S).1.current = g.current ∧
    (g.check_solution S).1.slots = setRow g.slots (g.current / COLUMN_SIZE * COLUMN_SIZE) (g.current_guess.map fun b => { b with status := some CORRECT }) := by
  have hw : S.map some = g.current_guess.map Cell.name := hword
  simp only [GuessView.check_solution]
  rw [if_pos hw]
  simp only [scoreRow]
  rw [if_pos hw]
  exact ⟨trivial, trivial, rfl⟩

lemma setRow_extract (slots : List Cell) (start : Nat) (row : List Cell)
    (h : start ≤ slots.length) :
    ((setRow slots start row).drop start).take row.length = row := by
  unfold setRow
  have hlen : (slots.take start).length = start := by
    simp [List.length_take]
    omega
  have h1 : ∀ (A B : List Cell), A.length = start → (A ++ B).drop start = B := by
    intro A B hA
    rw [← hA, List.drop_left]
  rw [List.append_assoc, h1 _ _ hlen, List.take_left]

lemma current_guess_length (g : GuessView)
    (hlen : g.slots.length = COLUMN_SIZE * ROW_SIZE)
    (hcur : g.current < COLUMN_SIZE * ROW_SIZE) :
    g.current_guess.length = COLUMN_SIZE := by
  simp only [GuessView.current_guess, List.length_take, List.length_drop]
  simp only [COLUMN_SIZE, ROW_SIZE] at *
  omega

lemma map_status_mark_correct (l : List Cell) :
    ((l.map fun b => { b with status := some CORRECT }).map Cell.status) =
      List.replicate l.length (some CORRECT) := by
  induction l with
  | nil => rfl
  | cons b bs ih => simp only [List.map_cons, List.length_cons, List.replicate, ih]

lemma on_key_terminal (La Ta : List (List Char)) (app : AppState)
    (h : app.result.isSome = true) (k : Key) :
    (on_key La Ta app k).guess = app.guess ∧
      (on_key La Ta app k).result = app.result ∧
      (on_key La Ta app k).stats = app.stats := by
  unfold on_key
  rw [if_pos h]
  cases k with
  | char c => by_cases hc : c = 'c' <;> simp [hc, copy_result]
  | enter => simp
  | backspace => simp
  | other => simp

lemma check_input_success (La Ta : List (List Char)) (app : AppState)
    (hempty : app.guess.current_word.contains none = false)
    (hlist : (!Ta.contains ((app.guess.current_word.filterMap id).map Char.toLower) && !La.contains ((app.guess.current_word.filterMap id).map Char.toLower)) = false)
    (hres : (app.guess.check_solution app.solution).2.isSome = true) :
    check_input La Ta app = save_statistics (show_result { app with guess := (app.guess.check_solution app.solution).1, result := (app.guess.check_solution app.solution).2, buttons := ((((app.guess.check_solution app.solution).1.slots.drop (app.guess.current / COLUMN_SIZE * COLUMN_SIZE)).take COLUMN_SIZE).foldl updateButton app.buttons) }) := by
  simp only [check_input]
  rw [if_neg (by simp only [hempty]; exact Bool.false_ne_true),
      if_neg (by simp only [hlist]; exact Bool.false_ne_true),
      if_pos hres]

/-- Claim C3: when the current row spells the solution and the word
passes the word-list check, submission marks all five cells `Correct`,
sets the result to a win at once — whatever row the cursor is in — and
the resulting state is terminal: no key changes the grid, the result or
the statistics any more. -/
theorem C3_winning_guess (La Ta : List (List Char)) (app : AppState)
    (hlen : app.guess.slots.length = COLUMN_SIZE * ROW_SIZE)
    (hcur : app.guess.current < COLUMN_SIZE * ROW_SIZE)
    (hword : app.solution.map some = app.guess.current_word)
    (hlist : (!Ta.contains ((app.guess.current_word.filterMap id).map Char.toLower) &&
              !La.contains ((app.guess.current_word.filterMap id).map Char.toLower)) = false) :
    (check_input La Ta app).result = some true ∧
    (((check_input La Ta app).guess.slots.drop
        (app.guess.current / COLUMN_SIZE * COLUMN_SIZE)).take COLUMN_SIZE).map Cell.status =
      List.replicate COLUMN_SIZE (some CORRECT) ∧
    ∀ k : Key,
      (on_key La Ta (check_input La Ta app) k).guess = (check_input La Ta app).guess ∧
      (on_key La Ta (check_input La Ta app) k).result = some true ∧
      (on_key La Ta (check_input La Ta app) k).stats = (check_input La Ta app).stats := by
  have hempty : app.guess.current_word.contains none = false := by
    rw [← hword]
    exact contains_none_map_some _
  obtain ⟨hp2, hpc, hps⟩ := check_solution_win app.guess app.solution hword
  have hred := check_input_success La Ta app hempty hlist (by rw [hp2]; rfl)
  have hres : (check_input La Ta app).result = some true := by
    rw [hred]
    simp only [save_statistics, show_result]
    exact hp2
  have hguess : (check_input La Ta app).guess = (app.guess.check_solution app.solution).1 := by
    rw [hred]
    simp only [save_statistics, show_result]
  refine ⟨hres, ?_, ?_⟩
  · rw [hguess, hps]
    have hstart : app.guess.current / COLUMN_SIZE * COLUMN_SIZE ≤ app.guess.slots.length := by
      simp only [COLUMN_SIZE, ROW_SIZE] at *
      omega
    have hx := setRow_extract app.guess.slots
      (app.guess.current / COLUMN_SIZE * COLUMN_SIZE)
      (app.guess.current_guess.map fun b => { b with status := some CORRECT }) hstart
    rw [List.length_map, current_guess_length app.guess hlen hcur] at hx
    rw [hx, map_status_mark_correct, current_guess_length app.guess hlen hcur]
  · intro k
    have hterm := on_key_terminal La Ta (check_input La Ta app) (by rw [hres]; rfl) k
    exact ⟨hterm.1, by rw [hterm.2.1, hres], hterm.2.2⟩

/-- Claim C3 witness: a grid whose first row spells the solution, with
the cursor mid-row, wins on submission and ignores a further Enter. -/
theorem C3_winning_guess_witness :
    (check_input [['c', 'r', 'a', 'n', 'e']] [] craneApp).result = some true ∧
    (on_key [['c', 'r', 'a', 'n', 'e']] []
      (check_input [['c', 'r', 'a', 'n', 'e']] [] craneApp) Key.enter).result = some true := by
  have h := C3_winning_guess [['c', 'r', 'a', 'n', 'e']] [] craneApp
    (by decide) (by decide) (by decide) (by decide)
  exact ⟨h.1, (h.2.2 Key.enter).2.1⟩

/- ------------------------------------------------------------------ -/
/- Claim C6: keyboard aggregation is a max and monotone               -/
/- ------------------------------------------------------------------ -/

lemma ordVal_updateButton (btns : Char → Option Nat) (c : Cell) (x : Char) :
    ordVal (updateButton btns c x) =
      max (ordVal (btns x)) (if c.name = some x then ordVal c.status else 0) := by
  cases hn : c.name with
  | none => simp [updateButton, hn]
  | some n =>
    cases hs : c.status with
    | none =>
      rcases eq_or_ne n x with rfl | hnx
      · simp [updateButton, hn, hs, ordVal]
      · simp [updateButton, hn, hs, hnx]
    | some v =>
      rcases eq_or_ne x n with rfl | hxn
      · cases hb : btns x with
        | none => simp [updateButton, hn, hs, hb, ordVal]
        | some a =>
          simp [updateButton, hn, hs, hb, ordVal]
          omega
      · have hnx : ¬ n = x := fun hh => hxn hh.symm
        simp [updateButton, hn, hs, hxn, hnx]

lemma foldl_updateButton (row : List Cell) : ∀ (btns : Char → Option Nat) (x : Char),
    ordVal ((row.foldl updateButton btns) x) = max (ordVal (btns x)) (rowOrd x row) := by
  induction row with
  | nil => intro btns x; simp [rowOrd]
  | cons c cs ih =>
    intro btns x
    simp only [List.foldl_cons]
    rw [ih (updateButton btns c) x, ordVal_updateButton]
    simp only [rowOrd, List.map_cons, List.foldr_cons]
    omega

lemma pass2_status_cases (bs : List Cell) : ∀ (cnt : Char → Int) (b : Cell),
    b ∈ pass2 bs cnt →
    b.status = some CORRECT ∨ b.status = some ABSENT ∨ b.status = some PRESENT := by
  induction bs with
  | nil => intro cnt b hb; simp [pass2] at hb
  | cons c cs ih =>
    intro cnt b hb
    by_cases hst : c.status = some CORRECT
    · simp only [pass2, hst, if_true, reduceIte, List.mem_cons] at hb
      rcases hb with rfl | hb
      · exact Or.inl hst
      · exact ih cnt b hb
    · cases hn : c.name with
      | none =>
        simp only [pass2, hst, hn, reduceIte, List.mem_cons] at hb
        rcases hb with rfl | hb
        · exact Or.inr (Or.inl rfl)
        · exact ih cnt b hb
      | some y =>
        by_cases hc : cnt y ≤ 0
        · simp only [pass2, hst, hn, hc, reduceIte, List.mem_cons] at hb
          rcases hb with rfl | hb
          · exact Or.inr (Or.inl rfl)
          · exact ih cnt b hb
        · simp only [pass2, hst, hn, hc, reduceIte, List.mem_cons] at hb
          rcases hb with rfl | hb
          · exact Or.inr (Or.inr rfl)
          · exact ih (decr cnt y) b hb

lemma scoreRow_status_cases (S : List Char) (letters : List Cell) (b : Cell)
    (hb : b ∈ scoreRow S letters) :
    b.status = some CORRECT ∨ b.status = some ABSENT ∨ b.status = some PRESENT := by
  unfold scoreRow at hb
  by_cases hw : S.map some = letters.map Cell.name
  · rw [if_pos hw] at hb
    simp only [List.mem_map] at hb
    obtain ⟨c, -, rfl⟩ := hb
    exact Or.inl rfl
  · rw [if_neg hw] at hb
    exact pass2_status_cases _ _ _ hb

lemma foldr_max_le (l : List Nat) (n : Nat) (h : ∀ a ∈ l, a ≤ n) :
    l.foldr max 0 ≤ n := by
  induction l with
  | nil => simp
  | cons a l ih =>
    simp only [List.foldr_cons]
    exact max_le (h a (by simp)) (ih fun b hb => h b (by simp [hb]))

lemma rowOrd_le_three (x : Char) (row : List Cell)
    (h : ∀ b ∈ row, b.status = some CORRECT ∨ b.status = some ABSENT ∨
      b.status = some PRESENT) :
    rowOrd x row ≤ 3 := by
  unfold rowOrd
  apply foldr_max_le
  intro a ha
  simp only [List.mem_map] at ha
  obtain ⟨b, hb, rfl⟩ := ha
  rcases h b hb with hs | hs | hs <;>
    by_cases hn : b.name = some x <;>
      simp [hn, hs, ordVal, CORRECT, ABSENT, PRESENT]

lemma map_name_mark_correct (l : List Cell) :
    ((l.map fun b => { b with status := some CORRECT }).map Cell.name) = l.map Cell.name := by
  induction l with
  | nil => rfl
  | cons b bs ih => simp only [List.map_cons, ih]

lemma scoreRow_names (S : List Char) (letters : List Cell) :
    (scoreRow S letters).map Cell.name = letters.map Cell.name := by
  unfold scoreRow
  by_cases hw : S.map some = letters.map Cell.name
  · rw [if_pos hw, map_name_mark_correct]
  · rw [if_neg hw, pass2_names, pass1_names]

lemma scoreRow_length (S : List Char) (letters : List Cell) :
    (scoreRow S letters).length = letters.length := by
  have h := congrArg List.length (scoreRow_names S letters)
  simpa using h

lemma check_solution_slots (g : GuessView) (S : List Char) :
    (g.check_solution S).1.slots =
      setRow g.slots (g.current / COLUMN_SIZE * COLUMN_SIZE) (scoreRow S g.current_guess) := by
  simp only [GuessView.check_solution]
  split_ifs <;> rfl

lemma check_input_buttons (La Ta : List (List Char)) (app : AppState)
    (hempty : app.guess.current_word.contains none = false)
    (hlist : (!Ta.contains ((app.guess.current_word.filterMap id).map Char.toLower) && !La.contains ((app.guess.current_word.filterMap id).map Char.toLower)) = false) :
    (check_input La Ta app).buttons =
      ((((app.guess.check_solution app.solution).1.slots.drop
        (app.guess.current / COLUMN_SIZE * COLUMN_SIZE)).take COLUMN_SIZE).foldl
        updateButton app.buttons) := by
  simp only [check_input]
  rw [if_neg (by simp only [hempty]; exact Bool.false_ne_true),
      if_neg (by simp only [hlist]; exact Bool.false_ne_true)]
  by_cases hres : (app.guess.check_solution app.solution).2.isSome = true
  · rw [if_pos hres]
    simp [save_statistics, show_result]
  · rw [if_neg hres]

/-- Claim C6: after a scored submission, each letter's keyboard rank is
exactly the max of its previous rank and the best rank the letter
achieved in the scored row (under `Correct > Present > Absent >
Unknown`), hence monotonically non-decreasing, and a letter already
`Correct` stays `Correct`. -/
theorem C6_keyboard_monotone_max (La Ta : List (List Char)) (app : AppState) (x : Char)
    (hlen : app.guess.slots.length = COLUMN_SIZE * ROW_SIZE)
    (hcur : app.guess.current < COLUMN_SIZE * ROW_SIZE)
    (hempty : app.guess.current_word.contains none = false)
    (hlist : (!Ta.contains ((app.guess.current_word.filterMap id).map Char.toLower) &&
              !La.contains ((app.guess.current_word.filterMap id).map Char.toLower)) = false) :
    ordVal ((check_input La Ta app).buttons x) =
      max (ordVal (app.buttons x))
        (rowOrd x (((app.guess.check_solution app.solution).1.slots.drop
          (app.guess.current / COLUMN_SIZE * COLUMN_SIZE)).take COLUMN_SIZE)) ∧
    ordVal (app.buttons x) ≤ ordVal ((check_input La Ta app).buttons x) ∧
    (app.buttons x = some CORRECT → (check_input La Ta app).buttons x = some CORRECT) := by
  have hbtn := check_input_buttons La Ta app hempty hlist
  have heq : ordVal ((check_input La Ta app).buttons x) =
      max (ordVal (app.buttons x))
        (rowOrd x (((app.guess.check_solution app.solution).1.slots.drop
          (app.guess.current / COLUMN_SIZE * COLUMN_SIZE)).take COLUMN_SIZE)) := by
    rw [hbtn, foldl_updateButton]
  refine ⟨heq, by rw [heq]; exact le_max_left _ _, ?_⟩
  intro hC
  have hscored : (((app.guess.check_solution app.solution).1.slots.drop
      (app.guess.current / COLUMN_SIZE * COLUMN_SIZE)).take COLUMN_SIZE) =
      scoreRow app.solution app.guess.current_guess := by
    rw [check_solution_slots]
    have hstart : app.guess.current / COLUMN_SIZE * COLUMN_SIZE ≤ app.guess.slots.length := by
      simp only [COLUMN_SIZE, ROW_SIZE] at *
      omega
    have hx := setRow_extract app.guess.slots
      (app.guess.current / COLUMN_SIZE * COLUMN_SIZE)
      (scoreRow app.solution app.guess.current_guess) hstart
    rw [scoreRow_length, current_guess_length app.guess hlen hcur] at hx
    exact hx
  have hbound : rowOrd x (((app.guess.check_solution app.solution).1.slots.drop
      (app.guess.current / COLUMN_SIZE * COLUMN_SIZE)).take COLUMN_SIZE) ≤ 3 := by
    rw [hscored]
    exact rowOrd_le_three x _ fun b hb => scoreRow_status_cases _ _ b hb
  have hold : ordVal (app.buttons x) = 3 := by rw [hC]; rfl
  have hnew : ordVal ((check_input La Ta app).buttons x) = 3 := by
    rw [heq, hold]
    omega
  cases hb : (check_input La Ta app).buttons x with
  | none => rw [hb] at hnew; simp [ordVal] at hnew
  | some v =>
    rw [hb] at hnew
    simp only [ordVal] at hnew
    have hv : v = 2 := by omega
    rw [hv]
    rfl

/-- Claim C6 witness: submitting the winning row CRANE raises the
keyboard state of `C` to the max of unset and Correct. -/
theorem C6_keyboard_monotone_max_witness :
    ordVal ((check_input [['c', 'r', 'a', 'n', 'e']] [] craneApp).buttons 'C') =
      max (ordVal (craneApp.buttons 'C'))
        (rowOrd 'C' (((craneApp.guess.check_solution craneApp.solution).1.slots.drop
          (craneApp.guess.current / COLUMN_SIZE * COLUMN_SIZE)).take COLUMN_SIZE)) :=
  (C6_keyboard_monotone_max [['c', 'r', 'a', 'n', 'e']] [] craneApp 'C'
    (by decide) (by decide) (by decide) (by decide)).1

/- ------------------------------------------------------------------ -/
/- Claim C7: statistics update on game end                            -/
/- ------------------------------------------------------------------ -/

/-- Claim C7 (code bug): on a first-row win with `played = 0`,
`save_statistics` leaves `played = 2` — not `1` as the spec requires —
because the source increments `self.stats["played"]` in place and then
both persists and merges back `self.stats["played"] + 1`.  The
win-count part of the claim does hold: `stats[attempts_used - 1]` is
incremented by exactly one, and the record stores the day's index and
result. -/
theorem C7_played_incremented_twice :
    (save_statistics wonApp).stats.played = wonApp.stats.played + 2 ∧
    (save_statistics wonApp).stats.stats = [1, 0, 0, 0, 0, 0] ∧
    (save_statistics wonApp).stats.last_played = some 7 ∧
    (save_statistics wonApp).stats.last_result = some true := by
  decide

/- ------------------------------------------------------------------ -/
/- Claim C8: resuming from a persisted record                         -/
/- ------------------------------------------------------------------ -/

lemma replaySlots_lt (ps : List (Char × Char)) :
    ∀ (k : Nat) (slots : List Cell) (j : Nat), j < k →
    (replaySlots ps k slots).getD j emptyCell = slots.getD j emptyCell := by
  induction ps with
  | nil => intro k slots j h; rfl
  | cons p rest ih =>
    intro k slots j h
    obtain ⟨l, s⟩ := p
    simp only [replaySlots]
    rw [ih (k + 1) _ j (by omega), getD_set_ne _ _ _ (by omega)]

lemma replaySlots_get (ps : List (Char × Char)) :
    ∀ (k : Nat) (slots : List Cell) (i : Nat) (l : Char) (s : Char),
    ps[i]? = some (l, s) → k + i < slots.length →
    (replaySlots ps k slots).getD (k + i) emptyCell = ⟨some l, some (digitVal s)⟩ := by
  induction ps with
  | nil => intro k slots i l s h _; simp at h
  | cons p rest ih =>
    intro k slots i l s h hlt
    obtain ⟨l0, s0⟩ := p
    cases i with
    | zero =>
      simp only [List.getElem?_cons_zero, Option.some.injEq, Prod.mk.injEq] at h
      obtain ⟨rfl, rfl⟩ := h
      simp only [replaySlots, Nat.add_zero] at hlt ⊢
      rw [replaySlots_lt rest (k + 1) _ k (by omega)]
      exact getD_set_self _ _ _ _ hlt
    | succ i =>
      simp only [List.getElem?_cons_succ] at h
      simp only [replaySlots]
      have hres := ih (k + 1) (slots.set k ⟨some l0, some (digitVal s0)⟩) i l s h
        (by simp only [List.length_set]; omega)
      rw [show k + (i + 1) = (k + 1) + i by omega]
      exact hres

lemma init_game_replay (index : Nat) (solution : List Char) (stats : Stats)
    (h : ¬ (stats.last_played.getD (-1) < (index : Int))) :
    (init_game (app_load index solution stats)).guess.slots =
      replaySlots (stats.last_guesses.1.zip stats.last_guesses.2) 0 GuessView.initial.slots ∧
    (init_game (app_load index solution stats)).buttons =
      replayButtons (stats.last_guesses.1.zip stats.last_guesses.2) (fun _ => none) ∧
    (init_game (app_load index solution stats)).result = stats.last_result ∧
    (init_game (app_load index solution stats)).stats = stats := by
  simp only [init_game, app_load]
  rw [if_neg h]
  simp [show_result]

/-- Claim C8: with a stored record and today's index, `init_game` on
the freshly loaded app starts the day fresh when the record is from an
earlier day — resetting only `last_result`, keeping the empty grid and
the whole played/stats history — and otherwise replays the stored
letters and single-digit statuses into the grid cell by cell in
row-major order, restoring the stored result and leaving `played`
untouched. -/
theorem C8_resume_decision (index : Nat) (solution : List Char) (stats : Stats) :
    ((stats.last_played.getD (-1) < (index : Int)) →
      init_game (app_load index solution stats) =
        { app_load index solution stats with stats := { stats with last_result := none } }) ∧
    (¬ (stats.last_played.getD (-1) < (index : Int)) →
      (∀ i l s, (stats.last_guesses.1.zip stats.last_guesses.2)[i]? = some (l, s) →
          i < COLUMN_SIZE * ROW_SIZE →
          (init_game (app_load index solution stats)).guess.slots.getD i emptyCell =
            ⟨some l, some (digitVal s)⟩) ∧
      (init_game (app_load index solution stats)).stats.played = stats.played ∧
      (init_game (app_load index solution stats)).stats.stats = stats.stats ∧
      (init_game (app_load index solution stats)).result = stats.last_result) := by
  constructor
  · intro h
    simp only [init_game, app_load]
    rw [if_pos h]
  · intro h
    obtain ⟨hslots, hbtns, hres, hstats⟩ := init_game_replay index solution stats h
    refine ⟨?_, by rw [hstats], by rw [hstats], hres⟩
    intro i l s hps hi
    rw [hslots]
    have := replaySlots_get (stats.last_guesses.1.zip stats.last_guesses.2) 0
      GuessView.initial.slots i l s hps
      (by simp [GuessView.initial, COLUMN_SIZE, ROW_SIZE] at hi ⊢; omega)
    rw [Nat.zero_add] at this
    exact this

/-- Claim C8 witness: replaying a same-day record restores the first
stored cell with its letter and status, without touching `played`. -/
theorem C8_resume_decision_witness :
    (init_game (app_load 7 ['C', 'R', 'A', 'N', 'E'] replayStats)).guess.slots.getD 0 emptyCell =
        ⟨some 'C', some (digitVal '2')⟩ ∧
    (init_game (app_load 7 ['C', 'R', 'A', 'N', 'E'] replayStats)).stats.played =
      replayStats.played := by
  have h := (C8_resume_decision 7 ['C', 'R', 'A', 'N', 'E'] replayStats).2 (by decide)
  exact ⟨h.1 0 'C' '2' (by decide) (by decide), h.2.1⟩

/- ------------------------------------------------------------------ -/
/- Claim C9: a winning submission does not advance the cursor         -/
/- ------------------------------------------------------------------ -/

lemma takeWhile_append_all {p : Cell → Bool} (A : List Cell)
    (hA : ∀ a ∈ A, p a = true) (B : List Cell) :
    (A ++ B).takeWhile p = A ++ B.takeWhile p := by
  induction A with
  | nil => rfl
  | cons a A ih =>
    have ha := hA a (by simp)
    simp [List.takeWhile_cons, ha, ih fun b hb => hA b (by simp [hb])]

lemma takeWhile_none {p : Cell → Bool} (B : List Cell)
    (hB : ∀ b ∈ B, p b = false) : B.takeWhile p = [] := by
  cases B with
  | nil => rfl
  | cons b B => simp [List.takeWhile_cons, hB b (by simp)]

lemma chunks5_length_mul : ∀ (k : Nat) (l : List Cell), l.length = 5 * k →
    (chunks5 l).length = k := by
  intro k
  induction k with
  | zero =>
    intro l hl
    have : l = [] := List.length_eq_zero.mp (by omega)
    subst this
    rfl
  | succ k ih =>
    intro l hl
    match l with
    | [] => simp only [List.length_nil] at hl; omega
    | [a] => simp only [List.length_cons, List.length_nil] at hl; omega
    | [a, b] => simp only [List.length_cons, List.length_nil] at hl; omega
    | [a, b, c] => simp only [List.length_cons, List.length_nil] at hl; omega
    | [a, b, c, d] => simp only [List.length_cons, List.length_nil] at hl; omega
    | a :: b :: c :: d :: e :: rest =>
      simp only [chunks5, List.length_cons]
      rw [ih rest (by simp only [List.length_cons] at hl; omega)]

/-- Claim C9: when the current row spells the solution,
`check_solution` returns before the cursor-advance step — the cursor
stays where it was in the winning row — and, on a grid whose filled
prefix is exactly the rows up to and including the winning one, the
number of filled rows (`valid_guesses`, the attempts count used for
statistics and export) is the winning row's 1-based index. -/
theorem C9_win_keeps_cursor (g : GuessView) (S : List Char) (full rest : List Cell)
    (hslots : g.slots = full ++ rest)
    (hfull : ∀ b ∈ full, b.name.isSome = true)
    (hrest : ∀ b ∈ rest, b.name = none)
    (hflen : full.length = g.current / COLUMN_SIZE * COLUMN_SIZE + COLUMN_SIZE)
    (hword : S.map some = g.current_word) :
    (g.check_solution S).1.current = g.current ∧
    ((g.check_solution S).1.valid_guesses).length = g.current / COLUMN_SIZE + 1 := by
  obtain ⟨hp2, hpc, hps⟩ := check_solution_win g S hword
  refine ⟨hpc, ?_⟩
  have hcg : g.current_guess = full.drop (g.current / COLUMN_SIZE * COLUMN_SIZE) := by
    simp only [GuessView.current_guess, hslots]
    rw [List.drop_append_of_le_length (by omega)]
    have hdl : (full.drop (g.current / COLUMN_SIZE * COLUMN_SIZE)).length = COLUMN_SIZE := by
      simp only [List.length_drop]
      omega
    rw [List.take_append_of_le_length (by omega), List.take_of_length_le (by omega)]
  have hrowlen : ((g.current_guess.map fun b => { b with status := some CORRECT })).length =
      COLUMN_SIZE := by
    rw [List.length_map, hcg]
    simp only [List.length_drop]
    omega
  have hnew : (g.check_solution S).1.slots =
      full.take (g.current / COLUMN_SIZE * COLUMN_SIZE) ++
        ((g.current_guess.map fun b => { b with status := some CORRECT }) ++ rest) := by
    rw [hps, hslots]
    unfold setRow
    rw [hrowlen]
    rw [List.take_append_of_le_length (by omega)]
    rw [show g.current / COLUMN_SIZE * COLUMN_SIZE + COLUMN_SIZE = full.length from hflen.symm,
      List.drop_left, List.append_assoc]
  simp only [GuessView.valid_guesses, hnew]
  have hrow : ∀ b ∈ (g.current_guess.map fun b => { b with status := some CORRECT }),
      (b.name.isSome : Bool) = true := by
    intro b hb
    simp only [List.mem_map] at hb
    obtain ⟨c, hc, rfl⟩ := hb
    have hcf : c ∈ full := List.mem_of_mem_drop (hcg ▸ hc)
    exact hfull c hcf
  have hr : ∀ b ∈ rest, (b.name.isSome : Bool) = false := by
    intro b hb
    simp [hrest b hb]
  rw [takeWhile_append_all _ (fun a ha => hfull a (List.mem_of_mem_take ha)) _]
  rw [takeWhile_append_all _ hrow rest]
  rw [takeWhile_none rest hr]
  apply chunks5_length_mul
  simp only [List.length_append, List.length_take, hrowlen, List.length_nil]
  have h1 : g.current / COLUMN_SIZE * COLUMN_SIZE ≤ full.length := by omega
  simp only [COLUMN_SIZE] at *
  omega

/-- Claim C9 witness: winning in the first row leaves the cursor at
slot 3 and counts one attempt. -/
theorem C9_win_keeps_cursor_witness :
    (craneGrid.check_solution ['C', 'R', 'A', 'N', 'E']).1.current = craneGrid.current ∧
    ((craneGrid.check_solution ['C', 'R', 'A', 'N', 'E']).1.valid_guesses).length =
      craneGrid.current / COLUMN_SIZE + 1 :=
  C9_win_keeps_cursor craneGrid ['C', 'R', 'A', 'N', 'E']
    (['C', 'R', 'A', 'N', 'E'].map fun c => (⟨some c, none⟩ : Cell))
    (List.replicate 25 emptyCell)
    (by decide) (by decide) (by decide) (by decide) (by decide)

/- ------------------------------------------------------------------ -/
/- Claim C10: replay restores cells and keyboard but resets cursor    -/
/- ------------------------------------------------------------------ -/

lemma ordVal_replayButtons (ps : List (Char × Char)) :
    ∀ (btns : Char → Option Nat) (x : Char),
    ordVal ((replayButtons ps btns) x) = max (ordVal (btns x)) (pairsOrd x ps) := by
  induction ps with
  | nil => intro btns x; simp [replayButtons, pairsOrd]
  | cons p rest ih =>
    intro btns x
    obtain ⟨l, s⟩ := p
    simp only [replayButtons]
    rw [ih]
    simp only [pairsOrd, List.map_cons, List.foldr_cons]
    have hstep : ordVal (if x = l then some (max ((btns l).getD 0) (digitVal s)) else btns x) =
        max (ordVal (btns x)) (if l = x then digitVal s + 1 else 0) := by
      rcases eq_or_ne x l with rfl | hxl
      · cases hb : btns x with
        | none => simp [ordVal, hb]
        | some a =>
          simp [ordVal, hb]
          omega
      · have hlx : ¬ l = x := fun hh => hxl hh.symm
        simp [hxl, hlx]
    rw [hstep]
    omega

/-- Claim C10: replaying a same-day record restores every stored cell's
letter and status and gives each keyboard letter the best rank among
its replayed statuses, but never restores the cursor: after the setup
sequence the cursor is 0, whatever the stored strings contain. -/
theorem C10_replay_resets_cursor (index : Nat) (solution : List Char) (stats : Stats)
    (hreplay : ¬ (stats.last_played.getD (-1) < (index : Int))) :
    (app_setup index solution stats).guess.current = 0 ∧
    (∀ i l s, (stats.last_guesses.1.zip stats.last_guesses.2)[i]? = some (l, s) →
        i < COLUMN_SIZE * ROW_SIZE →
        (app_setup index solution stats).guess.slots.getD i emptyCell =
          ⟨some l, some (digitVal s)⟩) ∧
    (∀ x : Char, ordVal ((app_setup index solution stats).buttons x) =
        pairsOrd x (stats.last_guesses.1.zip stats.last_guesses.2)) := by
  obtain ⟨hslots, hbtns, hres, hstats⟩ := init_game_replay index solution stats hreplay
  have hsetup_slots : (app_setup index solution stats).guess.slots =
      (init_game (app_load index solution stats)).guess.slots := by
    simp [app_setup]
  have hsetup_btns : (app_setup index solution stats).buttons =
      (init_game (app_load index solution stats)).buttons := by
    simp [app_setup]
  refine ⟨by simp [app_setup], ?_, ?_⟩
  · intro i l s hps hi
    rw [hsetup_slots, hslots]
    have := replaySlots_get (stats.last_guesses.1.zip stats.last_guesses.2) 0
      GuessView.initial.slots i l s hps
      (by simp [GuessView.initial, COLUMN_SIZE, ROW_SIZE] at hi ⊢; omega)
    rw [Nat.zero_add] at this
    exact this
  · intro x
    rw [hsetup_btns, hbtns, ordVal_replayButtons]
    simp [ordVal]

/-- Claim C10 witness: setting up with a same-day record leaves the
cursor at 0 while the first stored cell and the keyboard are
restored. -/
theorem C10_replay_resets_cursor_witness :
    (app_setup 7 ['C', 'R', 'A', 'N', 'E'] replayStats).guess.current = 0 ∧
    (app_setup 7 ['C', 'R', 'A', 'N', 'E'] replayStats).guess.slots.getD 0 emptyCell =
      ⟨some 'C', some (digitVal '2')⟩ := by
  have h := C10_replay_resets_cursor 7 ['C', 'R', 'A', 'N', 'E'] replayStats (by decide)
  exact ⟨h.1, h.2.1 0 'C' '2' (by decide) (by decide)⟩
